import Mathlib

/-!
Verification of the `redactable` redaction library.

Strings are modelled as `List Char`: a Rust `String` iterated with `.chars()`
yields exactly its Unicode scalar values, and a Lean `Char` is a Unicode
scalar value. `usize` counters are modelled as `Nat`; `usize::saturating_add`
is modelled as `Nat` addition, which cannot overflow, and agrees with the
saturating semantics on every machine-representable input (whenever the
compared length is itself representable).
-/

namespace Redactable

/-- Model of `REDACTED_PLACEHOLDER` from `policy/text.rs`: default placeholder for full
redaction. -/
def REDACTED_PLACEHOLDER : List Char := "[REDACTED]".data

/-- Model of `MASK_CHAR` from `policy/text.rs`: default masking character. -/
def MASK_CHAR : Char := '*'

/-- Model of `KeepConfig` from `policy/text.rs`: keeps `visiblePre` leading and
`visibleSuf` trailing scalar values, masking the middle. -/
structure KeepConfig where
  visiblePre : Nat
  visibleSuf : Nat
  mask_char : Char

/-- Model of `KeepConfig::apply_to`. The loop
`for ch in &mut chars[prefix..(total - suffix)] { *ch = mask }` is modelled by
splicing a `replicate` of the mask character over the span
`[visiblePre, total - visibleSuf)`. -/
def KeepConfig.apply_to (cfg : KeepConfig) (value : List Char) : List Char :=
  let total := value.length
  if total = 0 then REDACTED_PLACEHOLDER
  else if total ≤ cfg.visiblePre + cfg.visibleSuf then value
  else
    value.take cfg.visiblePre
      ++ List.replicate (total - cfg.visibleSuf - cfg.visiblePre) cfg.mask_char
      ++ value.drop (total - cfg.visibleSuf)

/-- Model of `MaskConfig` from `policy/text.rs`: masks `maskPre` leading and
`maskSuf` trailing scalar values, leaving the middle untouched. -/
structure MaskConfig where
  maskPre : Nat
  maskSuf : Nat
  mask_char : Char

/-- Model of `MaskConfig::apply_to`. `chars.fill(mask)` is `replicate total mask`;
the two masking loops over `chars[..prefix]` and `chars[total-suffix..]`
are modelled by splicing `replicate`s around the untouched middle
`chars[prefix..total-suffix]` (the `maskSuf > 0` guard in the source is
redundant: with suffix `0` the masked tail range is empty). -/
def MaskConfig.apply_to (cfg : MaskConfig) (value : List Char) : List Char :=
  let total := value.length
  if total = 0 then REDACTED_PLACEHOLDER
  else if total ≤ cfg.maskPre + cfg.maskSuf then
    List.replicate total cfg.mask_char
  else
    List.replicate cfg.maskPre cfg.mask_char
      ++ ((value.drop cfg.maskPre).take (total - cfg.maskSuf - cfg.maskPre))
      ++ List.replicate cfg.maskSuf cfg.mask_char

/-- Model of `EmailConfig` from `policy/text.rs`: keeps the first `visiblePre`
scalar values of the local part, masks the remainder, preserves the domain. -/
structure EmailConfig where
  visiblePre : Nat
  mask_char : Char

/-- Model of `EmailConfig::apply_to`. `value.find('@')` splits the string at the first
`'@'`; splitting a char sequence at the byte offset of its first `'@'` is
exactly `takeWhile (· != '@')` / `dropWhile (· != '@')` (the domain keeps the
`'@'`). The no-`@` arm masks `result[visiblePre..]`. -/
def EmailConfig.apply_to (cfg : EmailConfig) (value : List Char) : List Char :=
  let total := value.length
  if total = 0 then REDACTED_PLACEHOLDER
  else if '@' ∈ value then
    let localPart := value.takeWhile (fun c => c ≠ '@')
    let domain := value.dropWhile (fun c => c ≠ '@')
    if localPart.length ≤ cfg.visiblePre then value
    else
      localPart.take cfg.visiblePre
        ++ List.replicate (localPart.length - cfg.visiblePre) cfg.mask_char
        ++ domain
  else if total ≤ cfg.visiblePre then value
  else value.take cfg.visiblePre ++ List.replicate (total - cfg.visiblePre) cfg.mask_char

/-- Model of `TextRedactionPolicy` from `policy/text.rs`. -/
inductive TextRedactionPolicy where
  | full (placeholder : List Char)
  | keep (config : KeepConfig)
  | mask (config : MaskConfig)
  | email (config : EmailConfig)

/-- Model of `TextRedactionPolicy::apply_to`: total dispatch over the four kinds;
`Full` returns (a clone of) its configured placeholder. -/
def TextRedactionPolicy.apply_to : TextRedactionPolicy → List Char → List Char
  | .full placeholder, _ => placeholder
  | .keep config, value => config.apply_to value
  | .mask config, value => config.apply_to value
  | .email config, value => config.apply_to value

/-- Model of `TextRedactionPolicy::default_full`. -/
def TextRedactionPolicy.default_full : TextRedactionPolicy :=
  .full REDACTED_PLACEHOLDER

/-- Model of `TextRedactionPolicy::full_with`. -/
def TextRedactionPolicy.full_with (placeholder : List Char) : TextRedactionPolicy :=
  .full placeholder

/-- Model of `TextRedactionPolicy::email_local`. -/
def TextRedactionPolicy.email_local (visiblePre : Nat) : TextRedactionPolicy :=
  .email ⟨visiblePre, MASK_CHAR⟩

/-! ### `serde_json::Value` support (`redaction/json.rs`)

`serde_json::Value` is modelled as an inductive `Json`. All three trait
implementations in `json.rs` ignore the policy type parameter `P`, the mapper,
and the input value, returning `Value::String("[REDACTED]".to_string())`.
The Rust type parameters `P` (policy marker) and `M` (mapper) become ordinary
Lean type parameters. -/

/-- Model of `serde_json::Value`. -/
inductive Json where
  | null
  | bool (b : Bool)
  | num (n : Int)
  | str (s : List Char)
  | arr (elems : List Json)
  | obj (fields : List (List Char × Json))

/-- Model of `impl PolicyApplicable for serde_json::Value`: `apply_policy` treats the
value as an opaque leaf and fully redacts it for every policy and mapper. -/
def Json.apply_policy {P M : Type} (_policy : P) (_mapper : M) (_self : Json) : Json :=
  .str "[REDACTED]".data

/-- Model of `impl PolicyApplicableRef for serde_json::Value`: `apply_policy_ref`. -/
def Json.apply_policy_ref {P M : Type} (_policy : P) (_mapper : M) (_self : Json) : Json :=
  .str "[REDACTED]".data

/-- Model of `impl RedactableWithMapper for serde_json::Value`: `redact_with`. -/
def Json.redact_with {M : Type} (_mapper : M) (_self : Json) : Json :=
  .str "[REDACTED]".data

/-! ### Map traversal (`redaction/containers/maps.rs`)

Both the `HashMap` and `BTreeMap` implementations of `redact_with` rebuild the
map from `self.into_iter().map(|(k, v)| (k, v.redact_with(mapper)))`: keys are
passed through untouched, each value is redacted. A map is modelled as its
association list of entries, and `v.redact_with(mapper)` (for the element type
`V` and the given mapper) is abstracted as a function `redactValue : V → V`. -/

/-- Model of `redact_with` for `HashMap`/`BTreeMap`: transform values only, keys
unchanged. -/
def redactMapValues {K V : Type} (redactValue : V → V) (m : List (K × V)) :
    List (K × V) :=
  m.map fun kv => (kv.1, redactValue kv.2)

/-! ### Passthrough implementations (`redaction/containers/passthrough.rs`)

`impl_redactable_container_passthrough!(String)` and the
`RedactableContainer for Cow<'_, str>` impl both expand to
`fn redact_with(self, _mapper) -> Self { self }`. -/

/-- Model of `redact_with` for `String` (the passthrough macro expansion). -/
def stringRedactWith {M : Type} (_mapper : M) (s : List Char) : List Char := s

/-- Model of `redact_with` for `Cow<'_, str>` (its content, as scalar values). -/
def cowStrRedactWith {M : Type} (_mapper : M) (s : List Char) : List Char := s

end Redactable

namespace RedactableDerive

/-! ## The derive crate (`redactable-derive`)

A reduced but structurally faithful model of the `syn` types the planners
inspect: `syn::Type`, `syn::Path`, `syn::PathSegment`, `syn::PathArguments`,
`syn::GenericArgument` and `syn::TypeParamBound`, covering exactly the
variants `generics.rs::visit_type` distinguishes (everything else is the
catch-all `other`, matching the `_ => {}` arm). Lifetime/const arguments fall
under `GenericArgument.other`, matching the `_ => {}` arm of
`visit_path_arguments`. -/

mutual
inductive Ty where
  | path (qself : Option Ty) (path : Path)
  | reference (elem : Ty)
  | ptr (elem : Ty)
  | slice (elem : Ty)
  | array (elem : Ty)
  | tuple (elems : List Ty)
  | paren (elem : Ty)
  | group (elem : Ty)
  | traitObject (bounds : List TypeParamBound)
  | implTrait (bounds : List TypeParamBound)
  | bareFn (inputs : List Ty) (output : Option Ty)
  | other

inductive Path where
  | mk (leadingColon : Bool) (segments : List PathSegment)

inductive PathSegment where
  | mk (ident : String) (arguments : PathArguments)

inductive PathArguments where
  | none
  | angleBracketed (args : List GenericArgument)
  | parenthesized (inputs : List Ty) (output : Option Ty)

inductive GenericArgument where
  | type (ty : Ty)
  | assocType (ty : Ty)
  | constraint (bounds : List TypeParamBound)
  | other

inductive TypeParamBound where
  | traitBound (path : Path)
  | other
end

def Path.leadingColon : Path → Bool
  | .mk lc _ => lc

def Path.segments : Path → List PathSegment
  | .mk _ segs => segs

def PathSegment.ident : PathSegment → String
  | .mk id _ => id

def PathSegment.arguments : PathSegment → PathArguments
  | .mk _ args => args

/-- Model of `syn::PathArguments::is_empty`. -/
def PathArguments.isEmpty : PathArguments → Bool
  | .none => true
  | .angleBracketed args => args.isEmpty
  | .parenthesized _ _ => false

/-- Model of `syn::Path::is_ident`: no leading colon, exactly one segment with no
arguments, whose identifier is `name`. -/
def Path.isIdent (p : Path) (name : String) : Bool :=
  match p with
  | .mk false [.mk id .none] => id == name
  | _ => false

/-- Model of `types.rs::is_phantom_data`: the type is a path whose last segment is
`PhantomData` with angle-bracketed arguments (any path qualification). -/
def isPhantomData : Ty → Bool
  | .path _ p =>
    match p.segments.getLast? with
    | some seg =>
      seg.ident == "PhantomData"
        && (match seg.arguments with
            | .angleBracketed _ => true
            | _ => false)
    | Option.none => false
  | _ => false

/-- Model of `types.rs::is_scalar_type`: a bare single-segment path without leading
colon or arguments naming a primitive numeric, boolean or character type. -/
def isScalarType : Ty → Bool
  | .path _ p =>
    if p.leadingColon then false
    else if p.segments.length ≠ 1 then false
    else
      match p.segments.getLast? with
      | some seg =>
        if !seg.arguments.isEmpty then false
        else seg.ident ∈ ["i8", "i16", "i32", "i64", "i128", "isize",
              "u8", "u16", "u32", "u64", "u128", "usize",
              "f32", "f64", "bool", "char"]
      | Option.none => false
  | _ => false

/-! ### Bound inference (`generics.rs`)

`collect_generics_from_type` walks a field's declared type and accumulates
every generic-parameter identifier it encounters; `visit_path` skips a whole
path as soon as its last segment is `PhantomData`. The Rust `&mut Vec<Ident>`
accumulator is threaded explicitly; `generics` is the list of the type's
generic-parameter identifiers. -/

/-- Model of `generics.rs::push_if_generic`. -/
def pushIfGeneric (ident : String) (generics result : List String) : List String :=
  if ident ∈ generics ∧ ident ∉ result then result ++ [ident] else result

mutual
/-- Model of `generics.rs::visit_type_param_bound`. -/
def visitTypeParamBound (bound : TypeParamBound) (generics result : List String) :
    List String :=
  match bound with
  | .traitBound p => visitPath p generics result
  | .other => result

/-- The `for bound in bounds` loops of `generics.rs`. -/
def visitBoundList (bounds : List TypeParamBound) (generics result : List String) :
    List String :=
  match bounds with
  | [] => result
  | b :: bs => visitBoundList bs generics (visitTypeParamBound b generics result)

/-- Model of `generics.rs::visit_path_arguments`. -/
def visitPathArguments (args : PathArguments) (generics result : List String) :
    List String :=
  match args with
  | .none => result
  | .angleBracketed gas => visitGenericArgList gas generics result
  | .parenthesized inputs output =>
    let result := visitTyList inputs generics result
    match output with
    | some o => visitType o generics result
    | Option.none => result

/-- One `GenericArgument` case of `visit_path_arguments`. -/
def visitGenericArgument (arg : GenericArgument) (generics result : List String) :
    List String :=
  match arg with
  | .type t => visitType t generics result
  | .assocType t => visitType t generics result
  | .constraint bounds => visitBoundList bounds generics result
  | .other => result

/-- The `for arg in &args.args` loop of `visit_path_arguments`. -/
def visitGenericArgList (args : List GenericArgument) (generics result : List String) :
    List String :=
  match args with
  | [] => result
  | a :: rest => visitGenericArgList rest generics (visitGenericArgument a generics result)

/-- Model of `generics.rs::visit_path`: if the last segment is `PhantomData` the whole
path is skipped; otherwise every segment's identifier is collected and its
arguments visited. -/
def visitPath (p : Path) (generics result : List String) : List String :=
  match p with
  | .mk _ segs =>
    if (match segs.getLast? with
        | some seg => seg.ident == "PhantomData"
        | Option.none => false) then
      result
    else visitSegList segs generics result

/-- The `for segment in &path.segments` loop of `visit_path`. -/
def visitSegList (segs : List PathSegment) (generics result : List String) :
    List String :=
  match segs with
  | [] => result
  | .mk id args :: rest =>
    visitSegList rest generics
      (visitPathArguments args generics (pushIfGeneric id generics result))

/-- Model of `generics.rs::visit_type`. -/
def visitType (ty : Ty) (generics result : List String) : List String :=
  match ty with
  | .path qself p =>
    let result :=
      match qself with
      | some q => visitType q generics result
      | Option.none => result
    visitPath p generics result
  | .reference elem => visitType elem generics result
  | .ptr elem => visitType elem generics result
  | .slice elem => visitType elem generics result
  | .array elem => visitType elem generics result
  | .tuple elems => visitTyList elems generics result
  | .paren elem => visitType elem generics result
  | .group elem => visitType elem generics result
  | .traitObject bounds => visitBoundList bounds generics result
  | .implTrait bounds => visitBoundList bounds generics result
  | .bareFn inputs output =>
    let result := visitTyList inputs generics result
    (match output with
     | some o => visitType o generics result
     | Option.none => result)
  | .other => result

/-- The `for elem in ...` loops over types in `visit_type`. -/
def visitTyList (tys : List Ty) (generics result : List String) : List String :=
  match tys with
  | [] => result
  | t :: rest => visitTyList rest generics (visitType t generics result)
end

/-- Model of `generics.rs::collect_generics_from_type`. -/
def collect_generics_from_type (ty : Ty) (generics result : List String) :
    List String :=
  visitType ty generics result

/-- A generic type parameter of the derived type, with its accumulated trait
bounds (the `syn::TypeParam` the `add_*_bounds` helpers mutate). -/
structure TypeParam where
  ident : String
  bounds : List String

/-- Common shape of the `add_*_bounds` helpers in `generics.rs`: push the named
bound onto every type parameter listed in `used`. -/
def addBoundToUsed (boundName : String) (params : List TypeParam)
    (used : List String) : List TypeParam :=
  params.map fun p =>
    if used.contains p.ident then { p with bounds := p.bounds ++ [boundName] } else p

/-- Model of `generics.rs::add_container_bounds` (the Walkable capability). -/
def add_container_bounds (params : List TypeParam) (used : List String) :
    List TypeParam :=
  addBoundToUsed "RedactableContainer" params used

/-- Model of `generics.rs::add_policy_applicable_bounds`. -/
def add_policy_applicable_bounds (params : List TypeParam) (used : List String) :
    List TypeParam :=
  addBoundToUsed "PolicyApplicable" params used

/-- Model of `generics.rs::add_policy_applicable_ref_bounds`. -/
def add_policy_applicable_ref_bounds (params : List TypeParam) (used : List String) :
    List TypeParam :=
  addBoundToUsed "PolicyApplicableRef" params used

/-- Model of `generics.rs::add_debug_bounds`. -/
def add_debug_bounds (params : List TypeParam) (used : List String) :
    List TypeParam :=
  addBoundToUsed "Debug" params used

/-- Model of `generics.rs::add_display_bounds`. -/
def add_display_bounds (params : List TypeParam) (used : List String) :
    List TypeParam :=
  addBoundToUsed "Display" params used

/-- Model of `generics.rs::add_redacted_display_bounds`. -/
def add_redacted_display_bounds (params : List TypeParam) (used : List String) :
    List TypeParam :=
  addBoundToUsed "RedactableDisplay" params used

/-! ### Traversal planner (`transform.rs`) -/

namespace Transform

/-- The field strategy as matched by `transform.rs::generate_field_transform`
(`Strategy::WalkDefault` and `Strategy::Classify`). -/
inductive Strategy where
  | walkDefault
  | classify (policy : Path)

/-- The token stream `generate_field_transform` emits, abstracted to the kind
of step: empty stream (scalar passthrough), `RedactableContainer::redact_with`,
`mapper.map_scalar`, or `PolicyApplicable::apply_policy::<Policy, _>`. -/
inductive Step where
  | passthrough
  | walkContainer
  | mapScalar
  | applyPolicy (policy : Path)

/-- Model of `transform.rs::is_default_policy`. -/
def is_default_policy (path : Path) : Bool :=
  Path.isIdent path "Default"

/-- Model of `transform.rs::generate_field_transform`, restricted to the step/error
decision (the generics bookkeeping lives in `collect_generics_from_type`). -/
def generate_field_transform (ty : Ty) (strategy : Strategy) : Except String Step :=
  match strategy with
  | .walkDefault =>
    if isScalarType ty then .ok .passthrough else .ok .walkContainer
  | .classify policyPath =>
    if isScalarType ty then
      if is_default_policy policyPath then .ok .mapScalar
      else .error "scalar fields can only use #[sensitive(Default)]; other policies are for string-like types"
    else if Path.isIdent policyPath "Error" then .ok .walkContainer
    else .ok (.applyPolicy policyPath)

end Transform

/-! ### Display-template planner (`redacted_display.rs`) -/

namespace Display

/-- The field strategy of `strategy.rs` as used by `redacted_display.rs`
(`WalkDefault`, `NotSensitive`, `Policy(path)`). -/
inductive Strategy where
  | walkDefault
  | notSensitive
  | policy (policy : Path)

/-- The expression `redacted_expr_for_field` emits, abstracted to its kind:
`RedactableDisplay::redacted_display(&field)`, the raw binding,
`ScalarRedaction::redact(*field)`, or `apply_policy_ref::<Policy, _>(field)`. -/
inductive Expr where
  | redactedDisplay
  | raw
  | scalarRedact
  | applyPolicyRef (policy : Path)

/-- Model of `redacted_display.rs::redacted_expr_for_field`. -/
def redacted_expr_for_field (ty : Ty) (strategy : Strategy) : Expr :=
  match strategy with
  | .walkDefault => .redactedDisplay
  | .notSensitive => .raw
  | .policy p =>
    if isScalarType ty && Path.isIdent p "Secret" then .scalarRedact
    else .applyPolicyRef p

/-- Model of `FormatMode` from `redacted_display.rs` (`format_mode_from_spec` itself
only produces `display` or `debug`; `both` arises from `merge_mode`). -/
inductive FormatMode where
  | display
  | debug
  | both
deriving DecidableEq

/-- Rust `str::trim`, modelled over the whitespace characters Lean's
`Char.isWhitespace` recognizes (format specifiers are ASCII). -/
def trimChars (s : List Char) : List Char :=
  ((s.dropWhile Char.isWhitespace).reverse.dropWhile Char.isWhitespace).reverse

/-- Model of `redacted_display.rs::format_mode_from_spec`: trim the spec; empty selects
Display; a `$`/`*` dynamic width/precision spec is rejected; then the last
character (`unwrap_or_default` supplies `'\0'`, unreachable here) selects
Debug for `?`, rejects the numeric-base/pointer/exponent set, and defaults to
Display otherwise. -/
def format_mode_from_spec (specPart : List Char) : Except String FormatMode :=
  let spec := trimChars specPart
  if spec.isEmpty then .ok .display
  else if spec.contains '$' || spec.contains '*' then
    .error "format specifiers with dynamic width/precision are not supported"
  else
    let last := spec.getLast?.getD (Char.ofNat 0)
    if last = '?' then .ok .debug
    else if last = 'x' ∨ last = 'X' ∨ last = 'o' ∨ last = 'b' ∨ last = 'p'
        ∨ last = 'e' ∨ last = 'E' then
      .error "unsupported format specifier; only Display and Debug are supported"
    else .ok .display

end Display

end RedactableDerive

/-! ## Helper lemmas -/

namespace Redactable

theorem redactMapValues_lookup {K V : Type} [BEq K] (f : V → V) (m : List (K × V))
    (k : K) : (redactMapValues f m).lookup k = (m.lookup k).map f := by
  induction m with
  | nil => rfl
  | cons kv rest ih =>
    obtain ⟨a, b⟩ := kv
    simp only [redactMapValues, List.map_cons, List.lookup_cons] at *
    cases h : k == a <;> simp [h, ih]

theorem redactMapValues_keys {K V : Type} (f : V → V) (m : List (K × V)) :
    (redactMapValues f m).map Prod.fst = m.map Prod.fst := by
  induction m with
  | nil => rfl
  | cons kv rest ih =>
    simp only [redactMapValues, List.map_cons] at *
    exact congrArg _ ih

end Redactable

/-! ## Claim theorems -/

/-- C1: for every policy marker `P` and every mapper, redacting a
`serde_json::Value` fully redacts it: `apply_policy`, `apply_policy_ref` and
the plain traversal `redact_with` all return `Value::String("[REDACTED]")`
on every input value. -/
theorem C1_json_opaque_leaf_always_fully_redacted :
    ∀ (P M : Type) (policy : P) (mapper : M) (v : Redactable.Json),
      Redactable.Json.apply_policy policy mapper v
          = Redactable.Json.str "[REDACTED]".data ∧
      Redactable.Json.apply_policy_ref policy mapper v
          = Redactable.Json.str "[REDACTED]".data ∧
      Redactable.Json.redact_with mapper v
          = Redactable.Json.str "[REDACTED]".data :=
  fun _ _ _ _ _ => ⟨rfl, rfl, rfl⟩

/-- C10: the plain traversal (`redact_with`) for `String` and `Cow<str>` is
the identity for every mapper: unannotated strings pass through bit-for-bit
unchanged. -/
theorem C10_string_traversal_is_identity :
    ∀ (M : Type) (mapper : M) (s : List Char),
      Redactable.stringRedactWith mapper s = s ∧
      Redactable.cowStrRedactWith mapper s = s :=
  fun _ _ _ => ⟨rfl, rfl⟩

/-- C6: map redaction transforms values only and never keys: the redacted map
has exactly the original key sequence, and the value found at any key `k` is
the redaction of the original value at `k`. -/
theorem C6_map_redaction_preserves_keys_transforms_values :
    ∀ {K V : Type} [BEq K] (f : V → V) (m : List (K × V)) (k : K),
      (Redactable.redactMapValues f m).map Prod.fst = m.map Prod.fst ∧
      (Redactable.redactMapValues f m).lookup k = (m.lookup k).map f :=
  fun f m k =>
    ⟨Redactable.redactMapValues_keys f m, Redactable.redactMapValues_lookup f m k⟩

/-- C6 witness: a concrete two-entry map, redacted with the successor function
on values. -/
theorem C6_map_redaction_witness :
    (Redactable.redactMapValues (fun v => v + 1)
        [((1 : Nat), (2 : Nat)), (3, 4)]).map Prod.fst = [1, 3] ∧
    (Redactable.redactMapValues (fun v => v + 1)
        [((1 : Nat), (2 : Nat)), (3, 4)]).lookup 1 = some 3 := by
  have h := C6_map_redaction_preserves_keys_transforms_values
    (fun v => v + 1) [((1 : Nat), (2 : Nat)), (3, 4)] 1
  exact ⟨h.1.trans (by decide), h.2.trans (by decide)⟩

/-- C7 counterexample: the display-template planner does not fail on a scalar
field with a non-erase policy marker. For the scalar type `i32` and the marker
`Token`, `redacted_expr_for_field` (a total function with no error outcome)
emits a policy-applied-by-reference expression instead of the planning error
the claim requires; the distinguished marker it special-cases is `Secret`,
and it routes that case through `ScalarRedaction::redact`, not `map_scalar`. -/
theorem C7_display_planner_scalar_no_error :
    RedactableDerive.isScalarType
        (RedactableDerive.Ty.path Option.none
          (RedactableDerive.Path.mk false
            [RedactableDerive.PathSegment.mk "i32" RedactableDerive.PathArguments.none]))
      = true ∧
    RedactableDerive.Display.redacted_expr_for_field
        (RedactableDerive.Ty.path Option.none
          (RedactableDerive.Path.mk false
            [RedactableDerive.PathSegment.mk "i32" RedactableDerive.PathArguments.none]))
        (RedactableDerive.Display.Strategy.policy
          (RedactableDerive.Path.mk false
            [RedactableDerive.PathSegment.mk "Token" RedactableDerive.PathArguments.none]))
      = RedactableDerive.Display.Expr.applyPolicyRef
          (RedactableDerive.Path.mk false
            [RedactableDerive.PathSegment.mk "Token" RedactableDerive.PathArguments.none]) :=
  ⟨rfl, rfl⟩

/-- C7 (amended): in the traversal planner a scalar field under
`ApplyPolicy(marker)` plans to a `map_scalar` erasure step when the marker is
the erase-to-default marker `Default`, and to the static error
"scalar fields can only use #[sensitive(Default)]" for every other marker;
the display-template planner never errors on scalar fields: the marker
`Secret` renders via direct scalar redaction, every other marker (including
`Default`) renders via policy-applied-by-reference. -/
theorem C7_scalar_policy_planning (ty : RedactableDerive.Ty)
    (marker : RedactableDerive.Path)
    (hscalar : RedactableDerive.isScalarType ty = true) :
    (RedactableDerive.Transform.generate_field_transform ty
        (RedactableDerive.Transform.Strategy.classify marker)
      = if RedactableDerive.Transform.is_default_policy marker then
          Except.ok RedactableDerive.Transform.Step.mapScalar
        else
          Except.error "scalar fields can only use #[sensitive(Default)]; other policies are for string-like types") ∧
    (RedactableDerive.Display.redacted_expr_for_field ty
        (RedactableDerive.Display.Strategy.policy marker)
      = if RedactableDerive.Path.isIdent marker "Secret" then
          RedactableDerive.Display.Expr.scalarRedact
        else RedactableDerive.Display.Expr.applyPolicyRef marker) := by
  constructor
  · simp only [RedactableDerive.Transform.generate_field_transform, hscalar, if_true]
  · simp only [RedactableDerive.Display.redacted_expr_for_field, hscalar, Bool.true_and]

/-- C7 witness: the scalar type `i32` with the erase-to-default marker
`Default` plans to `map_scalar` in the traversal planner, and to
policy-applied-by-reference (no error) in the display planner. -/
theorem C7_scalar_policy_planning_witness :
    RedactableDerive.Transform.generate_field_transform
        (RedactableDerive.Ty.path Option.none
          (RedactableDerive.Path.mk false
            [RedactableDerive.PathSegment.mk "i32" RedactableDerive.PathArguments.none]))
        (RedactableDerive.Transform.Strategy.classify
          (RedactableDerive.Path.mk false
            [RedactableDerive.PathSegment.mk "Default" RedactableDerive.PathArguments.none]))
      = Except.ok RedactableDerive.Transform.Step.mapScalar ∧
    RedactableDerive.Display.redacted_expr_for_field
        (RedactableDerive.Ty.path Option.none
          (RedactableDerive.Path.mk false
            [RedactableDerive.PathSegment.mk "i32" RedactableDerive.PathArguments.none]))
        (RedactableDerive.Display.Strategy.policy
          (RedactableDerive.Path.mk false
            [RedactableDerive.PathSegment.mk "Default" RedactableDerive.PathArguments.none]))
      = RedactableDerive.Display.Expr.applyPolicyRef
          (RedactableDerive.Path.mk false
            [RedactableDerive.PathSegment.mk "Default" RedactableDerive.PathArguments.none]) := by
  have h := C7_scalar_policy_planning
    (RedactableDerive.Ty.path Option.none
      (RedactableDerive.Path.mk false
        [RedactableDerive.PathSegment.mk "i32" RedactableDerive.PathArguments.none]))
    (RedactableDerive.Path.mk false
      [RedactableDerive.PathSegment.mk "Default" RedactableDerive.PathArguments.none])
    rfl
  exact ⟨h.1.trans (by rfl), h.2.trans (by rfl)⟩

/-- C8 counterexample: the claim says a spec ending in `?` selects debug mode,
but the code checks the dynamic width/precision rejection first: the spec
`1$?` ends in `?` yet is rejected with the dynamic width/precision error. -/
theorem C8_trailing_question_not_always_debug :
    (RedactableDerive.Display.trimChars "1$?".data).getLast? = some '?' ∧
    RedactableDerive.Display.format_mode_from_spec "1$?".data
      = Except.error "format specifiers with dynamic width/precision are not supported" :=
  ⟨rfl, rfl⟩

/-- C8 (amended): after trimming, an empty spec selects display mode; a spec
containing `$` or `*` is rejected as unsupported dynamic width/precision (this
check precedes the trailing-`?` rule); otherwise a spec whose last character
is `?` selects debug mode, a spec whose last character is one of
`x X o b p e E` is rejected as unsupported, and every other spec selects
display mode. -/
theorem C8_format_mode_from_spec_characterization (spec : List Char) :
    (RedactableDerive.Display.trimChars spec = [] →
      RedactableDerive.Display.format_mode_from_spec spec
        = Except.ok RedactableDerive.Display.FormatMode.display) ∧
    (((RedactableDerive.Display.trimChars spec).contains '$'
        || (RedactableDerive.Display.trimChars spec).contains '*') = true →
      RedactableDerive.Display.format_mode_from_spec spec
        = Except.error "format specifiers with dynamic width/precision are not supported") ∧
    (∀ c : Char,
      ((RedactableDerive.Display.trimChars spec).contains '$'
        || (RedactableDerive.Display.trimChars spec).contains '*') = false →
      (RedactableDerive.Display.trimChars spec).getLast? = some c →
      (c = '?' →
        RedactableDerive.Display.format_mode_from_spec spec
          = Except.ok RedactableDerive.Display.FormatMode.debug) ∧
      ((c = 'x' ∨ c = 'X' ∨ c = 'o' ∨ c = 'b' ∨ c = 'p' ∨ c = 'e' ∨ c = 'E') →
        RedactableDerive.Display.format_mode_from_spec spec
          = Except.error "unsupported format specifier; only Display and Debug are supported") ∧
      (c ≠ '?' → ¬(c = 'x' ∨ c = 'X' ∨ c = 'o' ∨ c = 'b' ∨ c = 'p' ∨ c = 'e' ∨ c = 'E') →
        RedactableDerive.Display.format_mode_from_spec spec
          = Except.ok RedactableDerive.Display.FormatMode.display)) := by
  refine ⟨?_, ?_, ?_⟩
  · intro h
    simp only [RedactableDerive.Display.format_mode_from_spec, h, List.isEmpty_nil, if_true]
  · intro h
    have hne : (RedactableDerive.Display.trimChars spec).isEmpty = false := by
      cases hni : RedactableDerive.Display.trimChars spec with
      | nil => rw [hni] at h; simp at h
      | cons a l => simp
    simp only [RedactableDerive.Display.format_mode_from_spec, hne, h, Bool.false_eq_true,
      if_false, if_true]
  · intro c hcont hlast
    have hne : (RedactableDerive.Display.trimChars spec).isEmpty = false := by
      cases hni : RedactableDerive.Display.trimChars spec with
      | nil => rw [hni] at hlast; simp at hlast
      | cons a l => simp
    refine ⟨?_, ?_, ?_⟩
    · intro hq
      simp only [RedactableDerive.Display.format_mode_from_spec, hne, hcont, hlast,
        Option.getD_some, hq, Bool.false_eq_true, if_false, if_true]
    · intro hbase
      have hq : ¬((RedactableDerive.Display.trimChars spec).getLast?.getD (Char.ofNat 0) = '?') := by
        simp only [hlast, Option.getD_some]
        rcases hbase with h | h | h | h | h | h | h <;> subst h <;> decide
      simp only [RedactableDerive.Display.format_mode_from_spec, hne, hcont, hlast,
        Option.getD_some, Bool.false_eq_true, if_false]
      rw [if_neg (by simpa [hlast] using hq), if_pos]
      simpa using hbase
    · intro hq hbase
      simp only [RedactableDerive.Display.format_mode_from_spec, hne, hcont, hlast,
        Option.getD_some, Bool.false_eq_true, if_false]
      rw [if_neg hq, if_neg hbase]

/-- C8 witness: the spec `>8` (no `$`/`*`, last character `8`) selects display
mode; the spec `#?` selects debug mode. -/
theorem C8_format_mode_witness :
    RedactableDerive.Display.format_mode_from_spec ">8".data
      = Except.ok RedactableDerive.Display.FormatMode.display ∧
    RedactableDerive.Display.format_mode_from_spec "#?".data
      = Except.ok RedactableDerive.Display.FormatMode.debug := by
  constructor
  · exact ((C8_format_mode_from_spec_characterization ">8".data).2.2 '8' rfl rfl).2.2
      (by decide) (by decide)
  · exact ((C8_format_mode_from_spec_characterization "#?".data).2.2 '?' rfl rfl).1 rfl

/-- C4 counterexample: a `Full` policy configured with an empty custom
placeholder maps the empty string to the empty string — not to the fixed
placeholder `[REDACTED]`, and the result is an empty string, contradicting
the claim for the `Full` policy kind. -/
theorem C4_full_custom_placeholder_empty :
    Redactable.TextRedactionPolicy.apply_to (Redactable.TextRedactionPolicy.full_with []) []
      = ([] : List Char) ∧
    Redactable.REDACTED_PLACEHOLDER ≠ ([] : List Char) :=
  ⟨rfl, by decide⟩

/-- C4 (amended): every Keep, Mask and Email configuration maps the empty
string to the fixed placeholder `[REDACTED]` (which is non-empty); a `Full`
policy maps every input (the empty string included) to its configured
placeholder — the fixed placeholder for the default `Full` policy — so its
result on the empty string is non-empty exactly when the configured
placeholder is. -/
theorem C4_empty_input_yields_placeholder (kcfg : Redactable.KeepConfig)
    (mcfg : Redactable.MaskConfig) (ecfg : Redactable.EmailConfig)
    (ph : List Char) :
    Redactable.KeepConfig.apply_to kcfg [] = Redactable.REDACTED_PLACEHOLDER ∧
    Redactable.MaskConfig.apply_to mcfg [] = Redactable.REDACTED_PLACEHOLDER ∧
    Redactable.EmailConfig.apply_to ecfg [] = Redactable.REDACTED_PLACEHOLDER ∧
    Redactable.TextRedactionPolicy.apply_to (Redactable.TextRedactionPolicy.full_with ph) []
      = ph ∧
    Redactable.TextRedactionPolicy.apply_to Redactable.TextRedactionPolicy.default_full []
      = Redactable.REDACTED_PLACEHOLDER ∧
    Redactable.REDACTED_PLACEHOLDER ≠ [] ∧
    (ph ≠ [] →
      Redactable.TextRedactionPolicy.apply_to (Redactable.TextRedactionPolicy.full_with ph) []
        ≠ []) :=
  ⟨rfl, rfl, rfl, rfl, rfl, by decide, fun h => h⟩

/-- C4 witness: concrete configurations applied to the empty string. -/
theorem C4_empty_input_witness :
    Redactable.KeepConfig.apply_to ⟨1, 2, '*'⟩ [] = Redactable.REDACTED_PLACEHOLDER ∧
    Redactable.TextRedactionPolicy.apply_to
        (Redactable.TextRedactionPolicy.full_with "X".data) [] ≠ [] := by
  have h := C4_empty_input_yields_placeholder ⟨1, 2, '*'⟩ ⟨1, 2, '*'⟩ ⟨1, '*'⟩ "X".data
  exact ⟨h.1, h.2.2.2.2.2.2 (by decide)⟩

namespace RedactableDerive

theorem visitPath_phantom (lc : Bool) (qual : List PathSegment)
    (args : PathArguments) (generics result : List String) :
    visitPath (Path.mk lc (qual ++ [PathSegment.mk "PhantomData" args])) generics result
      = result := by
  unfold visitPath
  simp [List.getLast?_concat, PathSegment.ident]

theorem addBoundToUsed_nil (b : String) (params : List TypeParam) :
    addBoundToUsed b params [] = params := by
  simp [addBoundToUsed]

end RedactableDerive

/-- C9: bound inference skips the `PhantomData` wrapper at the point it is
recognized: for a field whose declared type is `PhantomData<...>` under any
path qualification, the structural traversal `collect_generics_from_type`
returns its accumulator unchanged, so the parameters mentioned only in that
field end up in no requirement set and receive no `RedactableContainer`
(Walkable), `PolicyApplicable`, `Debug`, `Display` or `RedactableDisplay`
bound. -/
theorem C9_phantom_data_excluded_from_bounds (lc : Bool)
    (qual : List RedactableDerive.PathSegment)
    (args : List RedactableDerive.GenericArgument)
    (generics acc : List String) (params : List RedactableDerive.TypeParam) :
    RedactableDerive.collect_generics_from_type
        (RedactableDerive.Ty.path Option.none
          (RedactableDerive.Path.mk lc
            (qual ++ [RedactableDerive.PathSegment.mk "PhantomData"
              (RedactableDerive.PathArguments.angleBracketed args)])))
        generics acc = acc ∧
    RedactableDerive.isPhantomData
        (RedactableDerive.Ty.path Option.none
          (RedactableDerive.Path.mk lc
            (qual ++ [RedactableDerive.PathSegment.mk "PhantomData"
              (RedactableDerive.PathArguments.angleBracketed args)])))
      = true ∧
    RedactableDerive.add_container_bounds params
        (RedactableDerive.collect_generics_from_type
          (RedactableDerive.Ty.path Option.none
            (RedactableDerive.Path.mk lc
              (qual ++ [RedactableDerive.PathSegment.mk "PhantomData"
                (RedactableDerive.PathArguments.angleBracketed args)])))
          generics []) = params ∧
    RedactableDerive.add_policy_applicable_bounds params
        (RedactableDerive.collect_generics_from_type
          (RedactableDerive.Ty.path Option.none
            (RedactableDerive.Path.mk lc
              (qual ++ [RedactableDerive.PathSegment.mk "PhantomData"
                (RedactableDerive.PathArguments.angleBracketed args)])))
          generics []) = params ∧
    RedactableDerive.add_debug_bounds params
        (RedactableDerive.collect_generics_from_type
          (RedactableDerive.Ty.path Option.none
            (RedactableDerive.Path.mk lc
              (qual ++ [RedactableDerive.PathSegment.mk "PhantomData"
                (RedactableDerive.PathArguments.angleBracketed args)])))
          generics []) = params ∧
    RedactableDerive.add_display_bounds params
        (RedactableDerive.collect_generics_from_type
          (RedactableDerive.Ty.path Option.none
            (RedactableDerive.Path.mk lc
              (qual ++ [RedactableDerive.PathSegment.mk "PhantomData"
                (RedactableDerive.PathArguments.angleBracketed args)])))
          generics []) = params ∧
    RedactableDerive.add_redacted_display_bounds params
        (RedactableDerive.collect_generics_from_type
          (RedactableDerive.Ty.path Option.none
            (RedactableDerive.Path.mk lc
              (qual ++ [RedactableDerive.PathSegment.mk "PhantomData"
                (RedactableDerive.PathArguments.angleBracketed args)])))
          generics []) = params := by
  have hcollect : ∀ acc' : List String,
      RedactableDerive.collect_generics_from_type
        (RedactableDerive.Ty.path Option.none
          (RedactableDerive.Path.mk lc
            (qual ++ [RedactableDerive.PathSegment.mk "PhantomData"
              (RedactableDerive.PathArguments.angleBracketed args)])))
        generics acc' = acc' := by
    intro acc'
    unfold RedactableDerive.collect_generics_from_type
    unfold RedactableDerive.visitType
    exact RedactableDerive.visitPath_phantom lc qual _ generics acc'
  have hphantom : RedactableDerive.isPhantomData
      (RedactableDerive.Ty.path Option.none
        (RedactableDerive.Path.mk lc
          (qual ++ [RedactableDerive.PathSegment.mk "PhantomData"
            (RedactableDerive.PathArguments.angleBracketed args)])))
      = true := by
    simp [RedactableDerive.isPhantomData, RedactableDerive.Path.segments,
      List.getLast?_concat, RedactableDerive.PathSegment.ident,
      RedactableDerive.PathSegment.arguments]
  refine ⟨hcollect acc, hphantom, ?_, ?_, ?_, ?_, ?_⟩ <;>
    rw [hcollect []] <;>
    exact RedactableDerive.addBoundToUsed_nil _ params

namespace Redactable

theorem keep_apply_to_getElem? (p suf : Nat) (m : Char) (value : List Char)
    (h : p + suf < value.length) (i : Nat) :
    (KeepConfig.apply_to ⟨p, suf, m⟩ value)[i]? =
      if p ≤ i ∧ i < value.length - suf then some m
      else value[i]? := by
  simp only [KeepConfig.apply_to]
  rw [if_neg (by omega), if_neg (by omega), List.append_assoc,
    List.getElem?_append, List.getElem?_append]
  have hlen : (value.take p).length = p := by
    simp [List.length_take]; omega
  rw [hlen]
  by_cases h1 : i < p
  · rw [if_pos h1, if_neg (by omega), List.getElem?_take_of_lt h1]
  · rw [if_neg h1]
    by_cases h2 : i < value.length - suf
    · rw [if_pos (by simp [List.length_replicate]; omega),
        List.getElem?_replicate, if_pos (by omega), if_pos (by omega)]
    · rw [if_neg (by simp [List.length_replicate]; omega),
        if_neg (by omega), List.getElem?_drop, List.length_replicate]
      congr 1
      omega

theorem mask_apply_to_getElem? (pre suf : Nat) (m : Char) (value : List Char)
    (h : pre + suf < value.length) (i : Nat) :
    (MaskConfig.apply_to ⟨pre, suf, m⟩ value)[i]? =
      if i < pre ∨ (value.length - suf ≤ i ∧ i < value.length) then some m
      else value[i]? := by
  simp only [MaskConfig.apply_to]
  rw [if_neg (by omega), if_neg (by omega), List.append_assoc,
    List.getElem?_append, List.getElem?_append, List.length_replicate]
  have hmid : ((value.drop pre).take (value.length - suf - pre)).length
      = value.length - suf - pre := by
    simp [List.length_take, List.length_drop]; omega
  rw [hmid]
  by_cases h1 : i < pre
  · rw [if_pos h1, if_pos (by omega), List.getElem?_replicate, if_pos h1]
  · rw [if_neg h1]
    by_cases h2 : i < value.length - suf
    · rw [if_pos (by omega), if_neg (by omega), List.getElem?_take_of_lt (by omega),
        List.getElem?_drop]
      congr 1
      omega
    · by_cases h3 : i < value.length
      · rw [if_neg (by omega), List.getElem?_replicate, if_pos (by omega),
          if_pos (by omega)]
      · rw [if_neg (by omega), List.getElem?_replicate, if_neg (by omega),
          if_neg (by omega), Eq.comm, List.getElem?_eq_none (by omega)]

theorem keep_apply_to_length (p suf : Nat) (m : Char) (value : List Char)
    (h : p + suf < value.length) :
    (KeepConfig.apply_to ⟨p, suf, m⟩ value).length = value.length := by
  simp only [KeepConfig.apply_to]
  rw [if_neg (by omega), if_neg (by omega)]
  simp only [List.length_append, List.length_take, List.length_replicate,
    List.length_drop]
  omega

theorem mask_apply_to_length (pre suf : Nat) (m : Char) (value : List Char)
    (h : pre + suf < value.length) :
    (MaskConfig.apply_to ⟨pre, suf, m⟩ value).length = value.length := by
  simp only [MaskConfig.apply_to]
  rw [if_neg (by omega), if_neg (by omega)]
  simp only [List.length_append, List.length_take, List.length_replicate,
    List.length_drop]
  omega

end Redactable

/-- C2: for a string with `n > 0` scalar values, `Keep(prefix, suffix)` returns
the input unchanged when `prefix + suffix >= n` (the sum is a `Nat` sum, which
cannot overflow, matching the saturating add) and otherwise replaces exactly
the scalar values at positions `[prefix, n - suffix)` by the mask character;
`Mask(prefix, suffix)` returns `n` mask characters when `prefix + suffix >= n`
and otherwise replaces exactly the positions `[0, prefix)` and
`[n - suffix, n)`, leaving the middle untouched. -/
theorem C2_keep_mask_span_semantics (kcfg : Redactable.KeepConfig)
    (mcfg : Redactable.MaskConfig) (s : List Char) (hne : s ≠ []) :
    (kcfg.visiblePre + kcfg.visibleSuf ≥ s.length →
      Redactable.KeepConfig.apply_to kcfg s = s) ∧
    (kcfg.visiblePre + kcfg.visibleSuf < s.length →
      (Redactable.KeepConfig.apply_to kcfg s).length = s.length ∧
      ∀ i : Nat, (Redactable.KeepConfig.apply_to kcfg s)[i]? =
        if kcfg.visiblePre ≤ i ∧ i < s.length - kcfg.visibleSuf
        then some kcfg.mask_char else s[i]?) ∧
    (mcfg.maskPre + mcfg.maskSuf ≥ s.length →
      Redactable.MaskConfig.apply_to mcfg s
        = List.replicate s.length mcfg.mask_char) ∧
    (mcfg.maskPre + mcfg.maskSuf < s.length →
      (Redactable.MaskConfig.apply_to mcfg s).length = s.length ∧
      ∀ i : Nat, (Redactable.MaskConfig.apply_to mcfg s)[i]? =
        if i < mcfg.maskPre ∨ (s.length - mcfg.maskSuf ≤ i ∧ i < s.length)
        then some mcfg.mask_char else s[i]?) := by
  have h0 : s.length ≠ 0 := by
    simpa [List.length_eq_zero] using hne
  refine ⟨?_, ?_, ?_, ?_⟩
  · intro h
    simp only [Redactable.KeepConfig.apply_to]
    rw [if_neg h0, if_pos (by omega)]
  · intro h
    exact ⟨Redactable.keep_apply_to_length kcfg.visiblePre kcfg.visibleSuf
        kcfg.mask_char s h,
      Redactable.keep_apply_to_getElem? kcfg.visiblePre kcfg.visibleSuf
        kcfg.mask_char s h⟩
  · intro h
    simp only [Redactable.MaskConfig.apply_to]
    rw [if_neg h0, if_pos (by omega)]
  · intro h
    exact ⟨Redactable.mask_apply_to_length mcfg.maskPre mcfg.maskSuf
        mcfg.mask_char s h,
      Redactable.mask_apply_to_getElem? mcfg.maskPre mcfg.maskSuf
        mcfg.mask_char s h⟩

/-- C2 witness: `Keep(2, 2)` and `Mask(2, 2)` on the six-character string
`abcdef`. -/
theorem C2_keep_mask_witness :
    (Redactable.KeepConfig.apply_to ⟨2, 2, '*'⟩ "abcdef".data)[2]? = some '*' ∧
    (Redactable.KeepConfig.apply_to ⟨2, 2, '*'⟩ "abcdef".data)[0]? = some 'a' ∧
    (Redactable.MaskConfig.apply_to ⟨2, 2, '*'⟩ "abcdef".data)[0]? = some '*' ∧
    (Redactable.MaskConfig.apply_to ⟨2, 2, '*'⟩ "abcdef".data)[2]? = some 'c' ∧
    Redactable.KeepConfig.apply_to ⟨3, 3, '*'⟩ "abcde".data = "abcde".data := by
  have h := C2_keep_mask_span_semantics ⟨2, 2, '*'⟩ ⟨2, 2, '*'⟩ "abcdef".data (by decide)
  have h' := C2_keep_mask_span_semantics ⟨3, 3, '*'⟩ ⟨2, 2, '*'⟩ "abcde".data (by decide)
  refine ⟨((h.2.1 (by decide)).2 2).trans (by decide),
    ((h.2.1 (by decide)).2 0).trans (by decide),
    ((h.2.2.2 (by decide)).2 0).trans (by decide),
    ((h.2.2.2 (by decide)).2 2).trans (by decide),
    h'.1 (by decide)⟩

namespace Redactable

theorem dropWhile_mem_at (s : List Char) (h : '@' ∈ s) :
    ∃ d, s.dropWhile (fun c => c ≠ '@') = '@' :: d := by
  induction s with
  | nil => cases h
  | cons a rest ih =>
    by_cases ha : a = '@'
    · subst ha
      exact ⟨rest, by simp⟩
    · have hrest : '@' ∈ rest := by
        rcases List.mem_cons.mp h with h1 | h1
        · exact absurd h1.symm ha
        · exact h1
      obtain ⟨d, hd⟩ := ih hrest
      refine ⟨d, ?_⟩
      rw [List.dropWhile_cons_of_pos (by simp [ha]), hd]

theorem takeWhile_no_at (s : List Char) :
    ∀ a ∈ s.takeWhile (fun c => c ≠ '@'), a ≠ '@' := by
  intro a ha
  have := List.mem_takeWhile_imp ha
  simpa using this

theorem email_masked_getElem? (p : Nat) (m : Char) (A D : List Char)
    (hp : p < A.length) (i : Nat) :
    (A.take p ++ List.replicate (A.length - p) m ++ D)[i]? =
      if p ≤ i ∧ i < A.length then some m else (A ++ D)[i]? := by
  conv_rhs => rw [List.getElem?_append]
  rw [List.append_assoc, List.getElem?_append, List.getElem?_append,
    List.length_replicate]
  have hlen : (A.take p).length = p := by
    simp [List.length_take]; omega
  rw [hlen]
  by_cases h1 : i < p
  · rw [if_pos h1, if_neg (by omega), if_pos (by omega), List.getElem?_take_of_lt h1]
  · rw [if_neg h1]
    by_cases h2 : i < A.length
    · rw [if_pos (by omega), List.getElem?_replicate, if_pos (by omega),
        if_pos (by omega)]
    · rw [if_neg (by omega), if_neg (by omega), if_neg (by omega)]
      congr 1
      omega
end Redactable

/-- C3: for a non-empty string, `Email(visible-local-prefix)` behaves exactly
like `Keep(visible-local-prefix, 0)` when the string contains no `@`;
otherwise the split is at the first `@` (the local part is the longest
`@`-free prefix, witnessed here by the position of the first `@`): if the
visible prefix covers the local part the input is returned unchanged, else
exactly the local-part positions from the visible prefix up to the `@` are
replaced by the mask character and everything from the `@` on is unchanged.
In particular `Email(2)` leaves `al@example.com` unchanged and maps
`alice@example.com` to `al***@example.com`. -/
theorem C3_email_semantics (cfg : Redactable.EmailConfig) (s : List Char)
    (hne : s ≠ []) :
    ('@' ∉ s → Redactable.EmailConfig.apply_to cfg s
        = Redactable.KeepConfig.apply_to ⟨cfg.visiblePre, 0, cfg.mask_char⟩ s) ∧
    ('@' ∈ s →
      s[(s.takeWhile (fun c => c ≠ '@')).length]? = some '@' ∧
      (∀ j, j < (s.takeWhile (fun c => c ≠ '@')).length → s[j]? ≠ some '@') ∧
      ((s.takeWhile (fun c => c ≠ '@')).length ≤ cfg.visiblePre →
        Redactable.EmailConfig.apply_to cfg s = s) ∧
      (cfg.visiblePre < (s.takeWhile (fun c => c ≠ '@')).length →
        (Redactable.EmailConfig.apply_to cfg s).length = s.length ∧
        ∀ i : Nat, (Redactable.EmailConfig.apply_to cfg s)[i]? =
          if cfg.visiblePre ≤ i ∧ i < (s.takeWhile (fun c => c ≠ '@')).length
          then some cfg.mask_char else s[i]?)) ∧
    Redactable.EmailConfig.apply_to ⟨2, '*'⟩ "al@example.com".data
      = "al@example.com".data ∧
    Redactable.EmailConfig.apply_to ⟨2, '*'⟩ "alice@example.com".data
      = "al***@example.com".data := by
  have h0 : s.length ≠ 0 := by simpa [List.length_eq_zero] using hne
  refine ⟨?_, ?_, by decide, by decide⟩
  · intro hnot
    simp only [Redactable.EmailConfig.apply_to, Redactable.KeepConfig.apply_to]
    rw [if_neg h0, if_neg h0, if_neg hnot]
    by_cases hp : s.length ≤ cfg.visiblePre
    · rw [if_pos hp, if_pos (by omega)]
    · rw [if_neg hp, if_neg (by omega)]
      simp only [Nat.sub_zero]
      rw [List.drop_length, List.append_nil]
  · intro hmem
    obtain ⟨d, hd⟩ := Redactable.dropWhile_mem_at s hmem
    have hAD : s.takeWhile (fun c => c ≠ '@') ++ s.dropWhile (fun c => c ≠ '@') = s :=
      List.takeWhile_append_dropWhile _ _
    refine ⟨?_, ?_, ?_, ?_⟩
    · have h1 : (s.takeWhile (fun c => c ≠ '@')
          ++ s.dropWhile (fun c => c ≠ '@'))[(s.takeWhile (fun c => c ≠ '@')).length]?
          = s[(s.takeWhile (fun c => c ≠ '@')).length]? := by rw [hAD]
      rw [← h1, List.getElem?_append_right (Nat.le_refl _), Nat.sub_self, hd]
      simp
    · intro j hj
      conv_lhs => rw [← hAD]
      rw [List.getElem?_append_left hj, List.getElem?_eq_getElem hj]
      intro hcontra
      have heq : (s.takeWhile (fun c => c ≠ '@'))[j] = '@' := by
        injection hcontra
      exact Redactable.takeWhile_no_at s _ (List.getElem_mem _) heq
    · intro hp
      simp only [Redactable.EmailConfig.apply_to]
      rw [if_neg h0, if_pos hmem, if_pos hp]
    · intro hp
      have happ : Redactable.EmailConfig.apply_to cfg s
          = (s.takeWhile (fun c => c ≠ '@')).take cfg.visiblePre
            ++ List.replicate ((s.takeWhile (fun c => c ≠ '@')).length - cfg.visiblePre)
                cfg.mask_char
            ++ s.dropWhile (fun c => c ≠ '@') := by
        simp only [Redactable.EmailConfig.apply_to]
        rw [if_neg h0, if_pos hmem, if_neg (by omega)]
      constructor
      · rw [happ]
        conv_rhs => rw [← hAD]
        simp only [List.length_append, List.length_take, List.length_replicate]
        omega
      · intro i
        rw [happ, Redactable.email_masked_getElem? cfg.visiblePre cfg.mask_char _ _ hp i,
          hAD]

/-- C3 witness: `Email(2)` on the `@`-free string `noat` agrees with
`Keep(2, 0)`, and `Email(1)` on `ab@c.d` masks position 1. -/
theorem C3_email_witness :
    Redactable.EmailConfig.apply_to ⟨2, '*'⟩ "noat".data
      = Redactable.KeepConfig.apply_to ⟨2, 0, '*'⟩ "noat".data ∧
    (Redactable.EmailConfig.apply_to ⟨1, '*'⟩ "ab@c.d".data)[1]? = some '*' := by
  have h1 := C3_email_semantics ⟨2, '*'⟩ "noat".data (by decide)
  have h2 := C3_email_semantics ⟨1, '*'⟩ "ab@c.d".data (by decide)
  exact ⟨h1.1 (by decide),
    (((h2.2.1 (by decide)).2.2.2 (by decide)).2 1).trans (by decide)⟩

namespace Redactable

theorem keep_apply_shape (p suf : Nat) (m : Char) (A R D : List Char) (n : Nat)
    (hA : A.length = p) (hR : R = List.replicate (n - suf - p) m) (_hD : D.length = suf)
    (hn : (A ++ R ++ D).length = n) (hlt : p + suf < n) :
    KeepConfig.apply_to ⟨p, suf, m⟩ (A ++ R ++ D) = A ++ R ++ D := by
  simp only [KeepConfig.apply_to]
  rw [if_neg (by omega), if_neg (by omega), hn]
  have htake : (A ++ R ++ D).take p = A := by
    rw [List.append_assoc]
    exact List.take_left' hA
  have hdrop : (A ++ R ++ D).drop (n - suf) = D := by
    refine List.drop_left' ?_
    have : R.length = n - suf - p := by rw [hR]; simp
    simp only [List.length_append, hA, this]
    omega
  rw [htake, hdrop, ← hR]

theorem keep_idem (p suf : Nat) (m : Char) (s : List Char) (hne : s ≠ []) :
    KeepConfig.apply_to ⟨p, suf, m⟩ (KeepConfig.apply_to ⟨p, suf, m⟩ s)
      = KeepConfig.apply_to ⟨p, suf, m⟩ s := by
  have h0 : s.length ≠ 0 := by simpa [List.length_eq_zero] using hne
  by_cases hc : s.length ≤ p + suf
  · have h : KeepConfig.apply_to ⟨p, suf, m⟩ s = s := by
      simp only [KeepConfig.apply_to]
      rw [if_neg h0, if_pos hc]
    rw [h]
    exact h
  · have hout : KeepConfig.apply_to ⟨p, suf, m⟩ s
        = s.take p ++ List.replicate (s.length - suf - p) m ++ s.drop (s.length - suf) := by
      simp only [KeepConfig.apply_to]
      rw [if_neg h0, if_neg hc]
    rw [hout]
    refine keep_apply_shape p suf m _ _ _ s.length ?_ rfl ?_ ?_ (by omega)
    · simp [List.length_take]; omega
    · simp [List.length_drop]; omega
    · simp [List.length_append, List.length_take, List.length_replicate, List.length_drop]
      omega

theorem mask_apply_shape (pre suf : Nat) (m : Char) (Mid : List Char) (n : Nat)
    (hMid : Mid.length = n - suf - pre) (hn : pre + suf < n)
    (hlen : (List.replicate pre m ++ Mid ++ List.replicate suf m).length = n) :
    MaskConfig.apply_to ⟨pre, suf, m⟩
        (List.replicate pre m ++ Mid ++ List.replicate suf m)
      = List.replicate pre m ++ Mid ++ List.replicate suf m := by
  simp only [MaskConfig.apply_to]
  rw [if_neg (by omega), if_neg (by omega), hlen]
  have hdrop : (List.replicate pre m ++ Mid ++ List.replicate suf m).drop pre
      = Mid ++ List.replicate suf m := by
    rw [List.append_assoc]
    exact List.drop_left' (by simp)
  rw [hdrop, List.take_left' hMid]

theorem mask_idem (pre suf : Nat) (m : Char) (s : List Char) (hne : s ≠ []) :
    MaskConfig.apply_to ⟨pre, suf, m⟩ (MaskConfig.apply_to ⟨pre, suf, m⟩ s)
      = MaskConfig.apply_to ⟨pre, suf, m⟩ s := by
  have h0 : s.length ≠ 0 := by simpa [List.length_eq_zero] using hne
  by_cases hc : s.length ≤ pre + suf
  · have h : MaskConfig.apply_to ⟨pre, suf, m⟩ s = List.replicate s.length m := by
      simp only [MaskConfig.apply_to]
      rw [if_neg h0, if_pos hc]
    rw [h]
    simp only [MaskConfig.apply_to, List.length_replicate]
    rw [if_neg h0, if_pos hc]
  · have hout : MaskConfig.apply_to ⟨pre, suf, m⟩ s
        = List.replicate pre m ++ (s.drop pre).take (s.length - suf - pre)
          ++ List.replicate suf m := by
      simp only [MaskConfig.apply_to]
      rw [if_neg h0, if_neg hc]
    rw [hout]
    refine mask_apply_shape pre suf m _ s.length ?_ (by omega) ?_
    · simp [List.length_take, List.length_drop]; omega
    · simp [List.length_append, List.length_take, List.length_drop]
      omega


theorem email_idem (p : Nat) (m : Char) (s : List Char) (hne : s ≠ []) :
    EmailConfig.apply_to ⟨p, m⟩ (EmailConfig.apply_to ⟨p, m⟩ s)
      = EmailConfig.apply_to ⟨p, m⟩ s := by
  have h0 : s.length ≠ 0 := by simpa [List.length_eq_zero] using hne
  by_cases hmem : '@' ∈ s
  · obtain ⟨d, hd⟩ := dropWhile_mem_at s hmem
    by_cases hp : (s.takeWhile (fun c => c ≠ '@')).length ≤ p
    · have h : EmailConfig.apply_to ⟨p, m⟩ s = s := by
        simp only [EmailConfig.apply_to]
        rw [if_neg h0, if_pos hmem, if_pos hp]
      rw [h]
      exact h
    · have hout : EmailConfig.apply_to ⟨p, m⟩ s
          = (s.takeWhile (fun c => c ≠ '@')).take p
            ++ List.replicate ((s.takeWhile (fun c => c ≠ '@')).length - p) m
            ++ ('@' :: d) := by
        simp only [EmailConfig.apply_to]
        rw [if_neg h0, if_pos hmem, if_neg hp, hd]
      rw [hout]
      have hAp : ((s.takeWhile (fun c => c ≠ '@')).take p).length = p := by
        simp only [List.length_take]; omega
      have hnoatA : ∀ a ∈ (s.takeWhile (fun c => c ≠ '@')).take p,
          (fun c => decide (c ≠ '@')) a = true := by
        intro a ha
        simpa using takeWhile_no_at s a (List.take_subset _ _ ha)
      have hmem' : '@' ∈ (s.takeWhile (fun c => c ≠ '@')).take p
          ++ List.replicate ((s.takeWhile (fun c => c ≠ '@')).length - p) m
          ++ ('@' :: d) := by
        simp
      have hlen' : ((s.takeWhile (fun c => c ≠ '@')).take p
          ++ List.replicate ((s.takeWhile (fun c => c ≠ '@')).length - p) m
          ++ ('@' :: d)).length ≠ 0 := by
        simp
      by_cases hm : m = '@'
      · have hR : List.replicate ((s.takeWhile (fun c => c ≠ '@')).length - p) m
            = '@' :: List.replicate ((s.takeWhile (fun c => c ≠ '@')).length - p - 1) '@' := by
          subst hm
          cases hk : (s.takeWhile (fun c => c ≠ '@')).length - p with
          | zero => omega
          | succ k => simp [List.replicate_succ]
        have htw : ((s.takeWhile (fun c => c ≠ '@')).take p
            ++ List.replicate ((s.takeWhile (fun c => c ≠ '@')).length - p) m
            ++ ('@' :: d)).takeWhile (fun c => c ≠ '@')
            = (s.takeWhile (fun c => c ≠ '@')).take p := by
          rw [List.append_assoc, List.takeWhile_append_of_pos hnoatA, hR]
          simp
        simp only [EmailConfig.apply_to]
        rw [if_neg hlen', if_pos hmem', if_pos (by rw [htw, hAp])]
      · have hnoatR : ∀ a ∈ List.replicate ((s.takeWhile (fun c => c ≠ '@')).length - p) m,
            (fun c => decide (c ≠ '@')) a = true := by
          intro a ha
          simp [List.eq_of_mem_replicate ha, hm]
        have htw : ((s.takeWhile (fun c => c ≠ '@')).take p
            ++ List.replicate ((s.takeWhile (fun c => c ≠ '@')).length - p) m
            ++ ('@' :: d)).takeWhile (fun c => c ≠ '@')
            = (s.takeWhile (fun c => c ≠ '@')).take p
              ++ List.replicate ((s.takeWhile (fun c => c ≠ '@')).length - p) m := by
          rw [List.append_assoc, List.takeWhile_append_of_pos hnoatA,
            List.takeWhile_append_of_pos hnoatR]
          simp
        have hdw : ((s.takeWhile (fun c => c ≠ '@')).take p
            ++ List.replicate ((s.takeWhile (fun c => c ≠ '@')).length - p) m
            ++ ('@' :: d)).dropWhile (fun c => c ≠ '@') = '@' :: d := by
          rw [List.append_assoc, List.dropWhile_append_of_pos hnoatA,
            List.dropWhile_append_of_pos hnoatR]
          simp
        have hlenL : (((s.takeWhile (fun c => c ≠ '@')).take p
            ++ List.replicate ((s.takeWhile (fun c => c ≠ '@')).length - p) m
            ++ ('@' :: d)).takeWhile (fun c => c ≠ '@')).length
            = (s.takeWhile (fun c => c ≠ '@')).length := by
          rw [htw]
          simp only [List.length_append, hAp, List.length_replicate]
          omega
        simp only [EmailConfig.apply_to]
        rw [if_neg hlen', if_pos hmem', if_neg (by rw [hlenL]; omega), hlenL, htw, hdw,
          List.take_left' hAp]
  · by_cases hp : s.length ≤ p
    · have h : EmailConfig.apply_to ⟨p, m⟩ s = s := by
        simp only [EmailConfig.apply_to]
        rw [if_neg h0, if_neg hmem, if_pos hp]
      rw [h]
      exact h
    · have hout : EmailConfig.apply_to ⟨p, m⟩ s
          = s.take p ++ List.replicate (s.length - p) m := by
        simp only [EmailConfig.apply_to]
        rw [if_neg h0, if_neg hmem, if_neg hp]
      rw [hout]
      have hsp : (s.take p).length = p := by
        simp only [List.length_take]; omega
      have hnoatA : ∀ a ∈ s.take p, (fun c => decide (c ≠ '@')) a = true := by
        intro a ha
        have : a ∈ s := List.take_subset _ _ ha
        simp only [decide_eq_true_eq]
        intro hcontra
        exact hmem (hcontra ▸ this)
      have hlen' : (s.take p ++ List.replicate (s.length - p) m).length ≠ 0 := by
        simp
        omega
      by_cases hm : m = '@'
      · have hmem' : '@' ∈ s.take p ++ List.replicate (s.length - p) m := by
          subst hm
          refine List.mem_append_right _ ?_
          exact List.mem_replicate.mpr ⟨by omega, rfl⟩
        have hR : List.replicate (s.length - p) m
            = '@' :: List.replicate (s.length - p - 1) '@' := by
          subst hm
          cases hk : s.length - p with
          | zero => omega
          | succ k => simp [List.replicate_succ]
        have htw : (s.take p ++ List.replicate (s.length - p) m).takeWhile
            (fun c => c ≠ '@') = s.take p := by
          rw [List.takeWhile_append_of_pos hnoatA, hR]
          simp
        simp only [EmailConfig.apply_to]
        rw [if_neg hlen', if_pos hmem', if_pos (by rw [htw, hsp])]
      · have hmem' : '@' ∉ s.take p ++ List.replicate (s.length - p) m := by
          intro hcontra
          rcases List.mem_append.mp hcontra with h1 | h1
          · exact hmem (List.take_subset _ _ h1)
          · exact hm (List.eq_of_mem_replicate h1).symm
        have hlen2 : (s.take p ++ List.replicate (s.length - p) m).length = s.length := by
          simp [hsp]
          omega
        simp only [EmailConfig.apply_to]
        rw [if_neg hlen', if_neg hmem', if_neg (by rw [hlen2]; omega), hlen2,
          List.take_left' hsp]
end Redactable

/-- C5: the Keep, Mask and Email policies are idempotent on non-empty inputs:
for every configuration (any counts and any mask character, `@` included) and
every non-empty string, applying the policy a second time to its own output
leaves the output unchanged. -/
theorem C5_keep_mask_email_idempotent (kcfg : Redactable.KeepConfig)
    (mcfg : Redactable.MaskConfig) (ecfg : Redactable.EmailConfig)
    (s : List Char) (hne : s ≠ []) :
    Redactable.KeepConfig.apply_to kcfg (Redactable.KeepConfig.apply_to kcfg s)
      = Redactable.KeepConfig.apply_to kcfg s ∧
    Redactable.MaskConfig.apply_to mcfg (Redactable.MaskConfig.apply_to mcfg s)
      = Redactable.MaskConfig.apply_to mcfg s ∧
    Redactable.EmailConfig.apply_to ecfg (Redactable.EmailConfig.apply_to ecfg s)
      = Redactable.EmailConfig.apply_to ecfg s :=
  ⟨Redactable.keep_idem kcfg.visiblePre kcfg.visibleSuf kcfg.mask_char s hne,
   Redactable.mask_idem mcfg.maskPre mcfg.maskSuf mcfg.mask_char s hne,
   Redactable.email_idem ecfg.visiblePre ecfg.mask_char s hne⟩

/-- C5 witness: concrete configurations re-applied to their own output on
`alice@example.com`. -/
theorem C5_idempotence_witness :
    Redactable.KeepConfig.apply_to ⟨2, 0, '*'⟩
        (Redactable.KeepConfig.apply_to ⟨2, 0, '*'⟩ "alice@example.com".data)
      = Redactable.KeepConfig.apply_to ⟨2, 0, '*'⟩ "alice@example.com".data ∧
    Redactable.MaskConfig.apply_to ⟨0, 2, '#'⟩
        (Redactable.MaskConfig.apply_to ⟨0, 2, '#'⟩ "alice@example.com".data)
      = Redactable.MaskConfig.apply_to ⟨0, 2, '#'⟩ "alice@example.com".data ∧
    Redactable.EmailConfig.apply_to ⟨2, '@'⟩
        (Redactable.EmailConfig.apply_to ⟨2, '@'⟩ "alice@example.com".data)
      = Redactable.EmailConfig.apply_to ⟨2, '@'⟩ "alice@example.com".data :=
  C5_keep_mask_email_idempotent ⟨2, 0, '*'⟩ ⟨0, 2, '#'⟩ ⟨2, '@'⟩
    "alice@example.com".data (by decide)
